import Mathlib

/-!
Verification of the text-to-SQL pipeline of the retail-analytics backend:
the SQL guard in `backend/agents/database_agent.py`, the context resolver in
`backend/services/context_resolver.py`, and the graph expansion wrappers in
`backend/database/gremlin_db.py` are shallowly embedded below and the spec
claims about them are settled.

The file has three parts:
1. list-level machinery: substring containment and a faithful model of
   Python `str.replace` (left-to-right, non-overlapping);
2. the embedding of the source functions;
3. the claim theorems together with their witnesses / counterexamples.
-/

/-! ### Part 1: substring containment and Python `str.replace` on `List Char` -/

/-- `containsSub q s` is true when `q` occurs in `s` as a contiguous substring
(Python `q in s`). -/
def containsSub (q : List Char) : List Char → Bool
  | [] => q.isPrefixOf []
  | c :: rest => q.isPrefixOf (c :: rest) || containsSub q rest

/-- Fuel-driven engine for `replaceList`; the fuel only has to dominate the
length of the scanned list, so the function stays structurally recursive and
kernel-reducible. -/
def replaceFuel (p r : List Char) : Nat → List Char → List Char
  | 0, s => s
  | _ + 1, [] => []
  | f + 1, c :: rest =>
    if p ≠ [] ∧ p.isPrefixOf (c :: rest) then
      r ++ replaceFuel p r f (rest.drop (p.length - 1))
    else
      c :: replaceFuel p r f rest

/-- Python `str.replace` on character lists: scan left to right, replace each
non-overlapping occurrence of `p` by `r`. -/
def replaceList (p r s : List Char) : List Char :=
  replaceFuel p r s.length s

/-! ### Part 2: Python string primitives -/

/-- Python `str.replace(p, r)` (all occurrences, scanned left to right). -/
def pyReplace (s p r : String) : String :=
  ⟨replaceList p.data r.data s.data⟩

/-- Python `str.upper()`; the SQL guard only ever inspects ASCII text. -/
def pyUpper (s : String) : String :=
  ⟨s.data.map Char.toUpper⟩

/-- Python `str.strip()`: drop leading and trailing whitespace. -/
def pyStrip (s : String) : String :=
  ⟨((s.data.dropWhile Char.isWhitespace).reverse.dropWhile Char.isWhitespace).reverse⟩

/-- Python membership test `sub in s`. -/
def pyContains (sub s : String) : Bool :=
  containsSub sub.data s.data

/-- Python `str.isdigit()` restricted to ASCII digits. -/
def pyIsDigit (s : String) : Bool :=
  !s.data.isEmpty && s.data.all Char.isDigit

/-- Numeric value of an all-digit string (Python `int(val)` on an `isdigit` string). -/
def digitsToNat (s : String) : Nat :=
  s.data.foldl (fun a c => a * 10 + (c.toNat - 48)) 0

/-! ### Part 3: embedding of `backend/agents/database_agent.py` -/

namespace DatabaseAgent

/-- Lines 400-403 and 527-528 of `database_agent.py`: strip the completion
text, delete Markdown code-fence markers, and strip again. -/
def cleanGeneratedSql (content : String) : String :=
  let sql_query := pyStrip content
  pyStrip (pyReplace (pyReplace sql_query "```sql" "") "```" "")

/-- Lines 405-407 of `database_agent.py`: append a default LIMIT when the text
has no case-insensitive LIMIT substring. -/
def appendDefaultLimit (sql_query : String) : String :=
  if pyContains "LIMIT" (pyUpper sql_query) then sql_query else sql_query ++ " LIMIT 50"

/-- The post-completion part of `DatabaseAgent._generate_sql_with_context`
(lines 400-409), applied to the raw completion text. -/
def generateSqlWithContext (content : String) : String :=
  appendDefaultLimit (cleanGeneratedSql content)

/-- Line 328 of `database_agent.py`: the semicolon-before-LIMIT repair applied
in `query_database` after SQL generation. -/
def fixSemicolonLimit (sql_query : String) : String :=
  pyReplace (pyReplace sql_query "; LIMIT" " LIMIT") ";LIMIT" " LIMIT"

/-- The complete default-path guard: what `query_database` executes for a raw
completion text (clean, append LIMIT, then repair the semicolon). -/
def guardedDefaultSql (content : String) : String :=
  fixSemicolonLimit (generateSqlWithContext content)

/-- The `chart_requirements` dictionary of `_generate_chart_specific_sql`
(lines 480-490) combined with the `.get(chart_type, "Return relevant data")`
default lookup of line 492. -/
def chartRequirements (chart_type : String) : String :=
  if chart_type = "PieChart" then
    "Need 1 category field and 1 numeric field. Use GROUP BY for aggregation."
  else if chart_type = "BarChart" then
    "Need 1-2 category fields and 1-3 numeric fields. Limit to top 20 rows."
  else if chart_type = "LineChart" then
    "Need 1 time/sequence field and 1-3 numeric trend fields. Order by time."
  else if chart_type = "AreaChart" then
    "Need 1 time field and 1-3 numeric fields for cumulative trends."
  else if chart_type = "ScatterChart" then
    "Need 2 numeric fields (X and Y axis). Include labels if available."
  else if chart_type = "GeoChart" then
    "Need location field (state/region) and 1 numeric field. Aggregate by location."
  else if chart_type = "Table" then
    "Return all relevant fields with proper formatting."
  else if chart_type = "Histogram" then
    "Need 1 numeric field for distribution analysis."
  else if chart_type = "ColumnChart" then
    "Similar to BarChart but for vertical orientation."
  else "Return relevant data"

/-- The post-completion part of `DatabaseAgent._generate_chart_specific_sql`
(lines 527-543): clean the text and, when no case-insensitive LIMIT substring
is present, append the chart-type-specific LIMIT.  Note that this path applies
no semicolon repair. -/
def generateChartSpecificSql (content : String) (chart_type : String) : String :=
  let sql_query := cleanGeneratedSql content
  if pyContains "LIMIT" (pyUpper sql_query) then sql_query
  else if chart_type = "PieChart" then sql_query ++ " LIMIT 10"
  else if chart_type = "BarChart" ∨ chart_type = "ColumnChart" then sql_query ++ " LIMIT 20"
  else if chart_type = "LineChart" then sql_query ++ " LIMIT 50"
  else if chart_type = "ScatterChart" then sql_query ++ " LIMIT 100"
  else sql_query ++ " LIMIT 50"

/-- The response dictionary built by `query_database` / `query_database_for_chart`;
keys that a given path omits are modelled as `none`.  Row values are kept at an
opaque type `Row`: `_normalize_value` routes decimals through IEEE-754 floats
(`float(value).is_integer()`), which has no faithful shallow embedding here, and
no claim settled below depends on the cell values. -/
structure AgentResponse (Row : Type) where
  agent : String
  status : String
  sql_query : Option String
  error : Option String
  data : List Row
  row_count : Option Nat
  columns : Option (List String)
  context_summary : Option String
  chart_type : Option String
deriving DecidableEq

/-- `DatabaseAgent.query_database` (lines 303-374), with the three fallible
collaborators (context resolution, LLM completion, database execution) passed
as `Except`-valued oracles.  An exception anywhere in the `try` block lands in
the `except` handler of lines 366-374, which reports `sql_query` when the
local variable was already bound and the string `"Query generation failed"`
otherwise. -/
def queryDatabase (Row : Type) (resolveCtx : Except String String)
    (llm : Except String String)
    (execute : String → Except String (List String × List Row)) : AgentResponse Row :=
  match resolveCtx with
  | .error e =>
    { agent := "database", status := "failed", sql_query := some "Query generation failed",
      error := some e, data := [], row_count := none, columns := none,
      context_summary := none, chart_type := none }
  | .ok summary =>
    match llm with
    | .error e =>
      { agent := "database", status := "failed", sql_query := some "Query generation failed",
        error := some e, data := [], row_count := none, columns := none,
        context_summary := none, chart_type := none }
    | .ok content =>
      let sql_query := fixSemicolonLimit (generateSqlWithContext content)
      match execute sql_query with
      | .error e =>
        { agent := "database", status := "failed", sql_query := some sql_query,
          error := some e, data := [], row_count := none, columns := none,
          context_summary := none, chart_type := none }
      | .ok (columns, rows) =>
        { agent := "database", status := "success", sql_query := some sql_query,
          error := none, data := rows, row_count := some rows.length,
          columns := some columns, context_summary := some summary, chart_type := none }

/-- `DatabaseAgent.query_database_for_chart` (lines 421-469).  Its `except`
handler (lines 462-469) builds `{agent, error, status, data}` only: unlike the
default path it does not report the attempted SQL text. -/
def queryDatabaseForChart (Row : Type) (resolveCtx : Except String String)
    (llm : Except String String) (chart_type : String)
    (execute : String → Except String (List String × List Row)) : AgentResponse Row :=
  match resolveCtx with
  | .error e =>
    { agent := "database", status := "failed", sql_query := none,
      error := some e, data := [], row_count := none, columns := none,
      context_summary := none, chart_type := none }
  | .ok _ =>
    match llm with
    | .error e =>
      { agent := "database", status := "failed", sql_query := none,
        error := some e, data := [], row_count := none, columns := none,
        context_summary := none, chart_type := none }
    | .ok content =>
      let sql_query := generateChartSpecificSql content chart_type
      match execute sql_query with
      | .error e =>
        { agent := "database", status := "failed", sql_query := none,
          error := some e, data := [], row_count := none, columns := none,
          context_summary := none, chart_type := none }
      | .ok (columns, rows) =>
        { agent := "database", status := "success", sql_query := some sql_query,
          error := none, data := rows, row_count := some rows.length,
          columns := some columns, context_summary := none, chart_type := some chart_type }

end DatabaseAgent

/-- Lexicographic strict comparison of character lists by code point, the
order Python uses to compare strings. -/
def lexLtChars : List Char → List Char → Bool
  | [], [] => false
  | [], _ :: _ => true
  | _ :: _, [] => false
  | x :: xs, y :: ys =>
    if x < y then true
    else if y < x then false
    else lexLtChars xs ys

/-- Python `min` over a list of strings: `none` on an empty list, otherwise
the first minimal element in lexicographic order. -/
def pyMinStr : List String → Option String
  | [] => none
  | a :: rest =>
    some (rest.foldl (fun m x => if lexLtChars x.data m.data then x else m) a)

/-- Python `max` over a list of strings: `none` on an empty list, otherwise
the first maximal element in lexicographic order. -/
def pyMaxStr : List String → Option String
  | [] => none
  | a :: rest =>
    some (rest.foldl (fun m x => if lexLtChars m.data x.data then x else m) a)

/-! ### Part 4: embedding of `backend/services/context_resolver.py` and the
graph wrappers of `backend/database/gremlin_db.py` -/

namespace ContextResolver

/-- One entity dictionary returned by Azure Search; only the fields the
resolver reads (`id`, `date`) are modelled, a missing key being `none`. -/
structure SearchEntity where
  id : Option String
  date : Option String
deriving DecidableEq

/-- The four entity lists returned by `azure_search.resolve_entities`. -/
structure Entities where
  products : List SearchEntity
  locations : List SearchEntity
  dates : List SearchEntity
  events : List SearchEntity
deriving DecidableEq

/-- The `GremlinConnection` collaborator of `gremlin_db.py`: `connected` is
the outcome of `ensure_connected`, and the three expansion methods are
oracles returning their traversal results (each returned graph record is
modelled as an opaque string).  Each method already returns `[]` on its own
internal failure, so the oracles are total. -/
structure GremlinConnection where
  connected : Bool
  expandProductContext : List String → List String
  expandLocationContext : List String → List String
  findRelatedEvents : List String → List String → List String

/-- Python truthiness of `d.get(key)` for a string field: `None` and the
empty string are falsy. -/
def truthyStr : Option String → Option String
  | some s => if s = "" then none else some s
  | none => none

/-- Line 161 of `context_resolver.py`:
`[p.get("id") for p in entities.get("products", []) if p.get("id")]`. -/
def resolvedProductIds (entities : Entities) : List String :=
  entities.products.filterMap (fun p => truthyStr p.id)

/-- Line 170 of `context_resolver.py`: the full list of truthy resolved
location ids (no truncation is applied to it). -/
def resolvedLocationIds (entities : Entities) : List String :=
  entities.locations.filterMap (fun l => truthyStr l.id)

/-- Line 179 of `context_resolver.py`: the truthy resolved date values. -/
def resolvedDateList (entities : Entities) : List String :=
  entities.dates.filterMap (fun d => truthyStr d.date)

/-- The dictionary built by `_expand_context_via_graph`. -/
structure ExpandedContext where
  expanded_products : List String
  expanded_locations : List String
  related_events : List String
deriving DecidableEq

/-- `ContextResolver._expand_context_via_graph` (lines 146-185): when the
graph is unavailable every expansion list is empty; otherwise each kind is
expanded exactly when its id list is nonempty, events additionally requiring
a nonempty date list. -/
def expandContextViaGraph (graph : GremlinConnection) (entities : Entities) :
    ExpandedContext :=
  if !graph.connected then
    { expanded_products := [], expanded_locations := [], related_events := [] }
  else
    let product_ids := resolvedProductIds entities
    let expanded_products :=
      if product_ids ≠ [] then graph.expandProductContext product_ids else []
    let location_ids := resolvedLocationIds entities
    let expanded_locations :=
      if location_ids ≠ [] then graph.expandLocationContext location_ids else []
    let date_list := resolvedDateList entities
    let related_events :=
      if date_list ≠ [] ∧ location_ids ≠ [] then
        graph.findRelatedEvents location_ids date_list
      else []
    { expanded_products := expanded_products, expanded_locations := expanded_locations,
      related_events := related_events }

/-- Proleptic-Gregorian date from a day count relative to 1970-01-01
(the standard civil-from-days computation, all divisions truncating as in the
source language). -/
def civilFromDays (z0 : Int) : Int × Int × Int :=
  let z := z0 + 719468
  let era := (if 0 ≤ z then z else z - 146096) / 146097
  let doe := z - era * 146097
  let yoe := (doe - doe / 1460 + doe / 36524 - doe / 146096) / 365
  let y := yoe + era * 400
  let doy := doe - (365 * yoe + yoe / 4 - yoe / 100)
  let mp := (5 * doy + 2) / 153
  let d := doy - (153 * mp + 2) / 5 + 1
  let m := if mp < 10 then mp + 3 else mp - 9
  (if m ≤ 2 then y + 1 else y, m, d)

/-- Zero-padded decimal rendering, as in `strftime` fields. -/
def padZeros (width : Nat) (n : Nat) : String :=
  let s := toString n
  ⟨List.replicate (width - s.length) '0'⟩ ++ s

/-- `(datetime(1899, 12, 30) + timedelta(days=n)).strftime("%Y-%m-%d")`:
1899-12-30 is day -25569 relative to 1970-01-01.  `none` models the
`OverflowError`/`ValueError` raised when the result leaves `datetime`'s
year range 1..9999. -/
def excelSerialToDate (n : Int) : Option String :=
  let ymd := civilFromDays (n - 25569)
  if 1 ≤ ymd.1 ∧ ymd.1 ≤ 9999 then
    some (padZeros 4 ymd.1.toNat ++ "-" ++ padZeros 2 ymd.2.1.toNat ++ "-" ++
      padZeros 2 ymd.2.2.toNat)
  else none

/-- `ContextResolver._convert_excel_date` (lines 187-196) on a string-valued
date field: an all-digit string is treated as an Excel serial day count and
converted, any exception returns the value unchanged, and any other string
passes through.  (A numeric field would take the `isinstance(val, (int,
float))` branch, which on a nonnegative integer serial is this same
computation composed with `int`; numbers are therefore modelled by their
digit strings.) -/
def convertExcelDate (v : String) : String :=
  if pyIsDigit v then
    match excelSerialToDate (Int.ofNat (digitsToNat v)) with
    | some d => d
    | none => v
  else v

/-- Line 203 of `context_resolver.py`: the converted truthy date values. -/
def resolvedDateValues (dates : List SearchEntity) : List String :=
  dates.filterMap (fun d => (truthyStr d.date).map convertExcelDate)

/-- `ContextResolver._extract_date_range` (lines 198-207): `None` on an empty
input list or when no entry has a truthy date; otherwise the pair of the
minimum and maximum converted date values (Python `min`/`max`, lexicographic
on strings, modelled by `pyMinStr`/`pyMaxStr`). -/
def extractDateRange (dates : List SearchEntity) : Option (String × String) :=
  if dates.isEmpty then none
  else
    match pyMinStr (resolvedDateValues dates), pyMaxStr (resolvedDateValues dates) with
    | some mn, some mx => some (mn, mx)
    | _, _ => none

/-- The per-kind slice of the full context dictionary. -/
structure KindContext where
  resolved : List SearchEntity
  expanded : List String
deriving DecidableEq

/-- The dates slice of the full context dictionary. -/
structure DatesContext where
  resolved : List SearchEntity
  date_range : Option (String × String)
deriving DecidableEq

/-- The events slice of the full context dictionary. -/
structure EventsContext where
  resolved : List SearchEntity
  related_events : List String
deriving DecidableEq

/-- The value returned by `ContextResolver.resolve_query_context`. -/
structure ResolvedContext where
  products : KindContext
  locations : KindContext
  dates : DatesContext
  events : EventsContext
  metadata : String
deriving DecidableEq

/-- `ContextResolver.resolve_query_context` (lines 37-144) after the Azure
Search call: combine the resolved entities with the graph expansion and the
extracted date range.  The search result and the metadata are inputs because
`azure_search` is an external collaborator (its failure propagates before any
of this code runs). -/
def resolveQueryContext (graph : GremlinConnection) (entities : Entities)
    (metadata : String) : ResolvedContext :=
  let expanded := expandContextViaGraph graph entities
  { products := { resolved := entities.products, expanded := expanded.expanded_products },
    locations := { resolved := entities.locations, expanded := expanded.expanded_locations },
    dates := { resolved := entities.dates, date_range := extractDateRange entities.dates },
    events := { resolved := entities.events, related_events := expanded.related_events },
    metadata := metadata }

end ContextResolver

/-! ### Part 5: spec-side comparison definitions -/

/-- Spec-side definition, from the claim wording of C6: the fixed lookup
table of chart-type row limits (10 for the proportion chart, 20 for
ranked-category and column charts, 50 for the time-series chart, 100 for the
scatter chart, and the default limit 50 for anything else). -/
def chartLimitTable (chart_type : String) : Nat :=
  if chart_type = "PieChart" then 10
  else if chart_type = "BarChart" ∨ chart_type = "ColumnChart" then 20
  else if chart_type = "LineChart" then 50
  else if chart_type = "ScatterChart" then 100
  else 50

/-- The fixed chart-type enumeration of spec section 4.7. -/
def chartTypeEnumeration : List String :=
  ["PieChart", "BarChart", "LineChart", "AreaChart", "ScatterChart",
   "GeoChart", "Table", "Histogram", "ColumnChart"]

/-- Number of positions at which `p` occurs in `s` as a substring. -/
def occurrences (p s : List Char) : Nat :=
  (List.range (s.length + 1)).countP (fun i => p.isPrefixOf (s.drop i))

/-- A connected graph collaborator that reports back exactly the id list it
was called with, making the argument of the expansion call observable. -/
def spyGremlin : ContextResolver.GremlinConnection :=
  { connected := true, expandProductContext := fun _ => [],
    expandLocationContext := fun ids => ids, findRelatedEvents := fun _ _ => [] }

/-- An unavailable graph collaborator whose expansion oracles would return
nonempty results if they were ever consulted. -/
def offlineGremlin : ContextResolver.GremlinConnection :=
  { connected := false, expandProductContext := fun _ => ["P9"],
    expandLocationContext := fun ids => ids, findRelatedEvents := fun _ _ => ["E9"] }

/-- A resolved-entity set with four truthy location ids. -/
def fourLocationEntities : ContextResolver.Entities :=
  { products := [], locations := [⟨some "L1", none⟩, ⟨some "L2", none⟩,
      ⟨some "L3", none⟩, ⟨some "L4", none⟩], dates := [], events := [] }

/-- One left-to-right replacement pass as a relation: the target is the source
with some occurrences of the pattern `p` replaced by `r` and every other
character copied verbatim, in order. -/
inductive ReplacedBy (p r : List Char) : List Char → List Char → Prop
  | nil : ReplacedBy p r [] []
  | copy (c : Char) {s t : List Char} : ReplacedBy p r s t →
      ReplacedBy p r (c :: s) (c :: t)
  | rwStep {s t : List Char} : ReplacedBy p r s t →
      ReplacedBy p r (p ++ s) (r ++ t)

/-- The semicolon-before-LIMIT repair as a relation: the target is the source
with some occurrences of `"; LIMIT"` or `";LIMIT"` replaced by `" LIMIT"` and
every other character — in particular every other semicolon — copied
verbatim, in order. -/
inductive SemiRepair : List Char → List Char → Prop
  | nil : SemiRepair [] []
  | copy (c : Char) {s t : List Char} : SemiRepair s t →
      SemiRepair (c :: s) (c :: t)
  | fixSpace {s t : List Char} : SemiRepair s t →
      SemiRepair ("; LIMIT".data ++ s) (" LIMIT".data ++ t)
  | fixTight {s t : List Char} : SemiRepair s t →
      SemiRepair (";LIMIT".data ++ s) (" LIMIT".data ++ t)

/-! ### Part 6: general lemmas about the string machinery -/

/-- `List.isPrefixOf` agrees with the existence of a completing suffix. -/
theorem pfxOf_iff {p s : List Char} : p.isPrefixOf s = true ↔ ∃ t, s = p ++ t := by
  induction p generalizing s with
  | nil => simp [List.isPrefixOf]
  | cons a as ih =>
    cases s with
    | nil => simp [List.isPrefixOf]
    | cons b bs =>
      simp only [List.isPrefixOf, Bool.and_eq_true, beq_iff_eq, ih, List.cons_append,
        List.cons.injEq]
      constructor
      · rintro ⟨rfl, t, rfl⟩; exact ⟨t, rfl, rfl⟩
      · rintro ⟨t, rfl, rfl⟩; exact ⟨rfl, t, rfl⟩

/-- The empty pattern occurs in every string. -/
theorem containsSub_nil_pat (s : List Char) : containsSub [] s = true := by
  cases s <;> simp [containsSub, List.isPrefixOf]

/-- Substring containment as an explicit decomposition. -/
theorem containsSub_iff {q s : List Char} :
    containsSub q s = true ↔ ∃ x y, s = x ++ q ++ y := by
  induction s with
  | nil =>
    simp only [containsSub, pfxOf_iff]
    constructor
    · rintro ⟨t, ht⟩
      rcases List.append_eq_nil.mp ht.symm with ⟨rfl, rfl⟩
      exact ⟨[], [], rfl⟩
    · rintro ⟨x, y, hxy⟩
      rcases List.append_eq_nil.mp hxy.symm with ⟨hxq, rfl⟩
      rcases List.append_eq_nil.mp hxq with ⟨rfl, rfl⟩
      exact ⟨[], rfl⟩
  | cons c rest ih =>
    simp only [containsSub, Bool.or_eq_true, pfxOf_iff, ih]
    constructor
    · rintro (⟨t, ht⟩ | ⟨x, y, hxy⟩)
      · exact ⟨[], t, by simp [ht]⟩
      · exact ⟨c :: x, y, by simp [hxy]⟩
    · rintro ⟨x, y, hxy⟩
      cases x with
      | nil => exact Or.inl ⟨y, by simpa using hxy⟩
      | cons a as =>
        simp only [List.cons_append, List.cons.injEq] at hxy
        exact Or.inr ⟨as, y, hxy.2⟩

/-- Containment in the left part of an append. -/
theorem containsSub_append_left {q a : List Char} (b : List Char)
    (h : containsSub q a = true) : containsSub q (a ++ b) = true := by
  rcases containsSub_iff.mp h with ⟨x, y, rfl⟩
  exact containsSub_iff.mpr ⟨x, y ++ b, by simp⟩

/-- Containment in the right part of an append. -/
theorem containsSub_append_right (a : List Char) {q b : List Char}
    (h : containsSub q b = true) : containsSub q (a ++ b) = true := by
  rcases containsSub_iff.mp h with ⟨x, y, rfl⟩
  exact containsSub_iff.mpr ⟨a ++ x, y, by simp⟩

/-- Substring containment is transitive. -/
theorem containsSub_trans {q r z : List Char} (h1 : containsSub q r = true)
    (h2 : containsSub r z = true) : containsSub q z = true := by
  rcases containsSub_iff.mp h1 with ⟨x1, y1, rfl⟩
  rcases containsSub_iff.mp h2 with ⟨x2, y2, rfl⟩
  exact containsSub_iff.mpr ⟨x2 ++ x1, y1 ++ y2, by simp⟩

/-- A character map preserves substring containment. -/
theorem containsSub_map (u : Char → Char) {q s : List Char}
    (h : containsSub q s = true) : containsSub (q.map u) (s.map u) = true := by
  rcases containsSub_iff.mp h with ⟨x, y, rfl⟩
  exact containsSub_iff.mpr ⟨x.map u, y.map u, by simp⟩

/-- An occurrence in an append lies in the left part, in the right part, or
spans the junction with a nonempty piece on each side. -/
theorem containsSub_split {P a b : List Char} (h : containsSub P (a ++ b) = true) :
    containsSub P a = true ∨ containsSub P b = true ∨
      ∃ a2 b1, a2 ≠ [] ∧ b1 ≠ [] ∧ P = a2 ++ b1 ∧
        (∃ a1, a = a1 ++ a2) ∧ (∃ b2, b = b1 ++ b2) := by
  rcases containsSub_iff.mp h with ⟨x, y, hxy⟩
  rw [List.append_assoc] at hxy
  rcases List.append_eq_append_iff.mp hxy with ⟨w, hw1, hw2⟩ | ⟨w, hw1, hw2⟩
  · -- x = a ++ w and b = w ++ (P ++ y): the occurrence lies in b
    exact Or.inr (Or.inl (containsSub_iff.mpr ⟨w, y, by rw [hw2, List.append_assoc]⟩))
  · -- a = x ++ w and P ++ y = w ++ b
    rcases List.append_eq_append_iff.mp hw2 with ⟨v, hv1, hv2⟩ | ⟨v, hv1, hv2⟩
    · -- w = P ++ v: the occurrence lies in a
      exact Or.inl (containsSub_iff.mpr ⟨x, v, by rw [hw1, hv1, List.append_assoc]⟩)
    · -- P = w ++ v and b = v ++ y
      cases hw : w with
      | nil =>
        subst hw; simp only [List.nil_append] at hv1
        exact Or.inr (Or.inl (containsSub_iff.mpr ⟨[], y, by simp [hv2, hv1]⟩))
      | cons w0 ws =>
        cases hv : v with
        | nil =>
          subst hv; simp only [List.append_nil] at hv1
          exact Or.inl (containsSub_iff.mpr ⟨x, [], by simp [hw1, hv1]⟩)
        | cons v0 vs =>
          refine Or.inr (Or.inr ⟨w, v, ?_, ?_, hv1, ⟨x, hw1⟩, ⟨y, hv2⟩⟩)
          · rw [hw]; exact List.cons_ne_nil _ _
          · rw [hv]; exact List.cons_ne_nil _ _

theorem replaceFuel_nilInput (p r : List Char) (f : Nat) : replaceFuel p r f [] = [] := by
  cases f <;> rfl

/-- The fuel is irrelevant once it dominates the length of the list. -/
theorem replaceFuel_congr (p r : List Char) :
    ∀ f g s, s.length ≤ f → s.length ≤ g → replaceFuel p r f s = replaceFuel p r g s := by
  intro f
  induction f with
  | zero =>
    intro g s hf _
    rcases List.length_eq_zero.mp (Nat.le_zero.mp hf) with rfl
    rw [replaceFuel_nilInput, replaceFuel_nilInput]
  | succ f ih =>
    intro g s hf hg
    cases s with
    | nil => rw [replaceFuel_nilInput, replaceFuel_nilInput]
    | cons c rest =>
      cases g with
      | zero => simp at hg
      | succ g =>
        simp only [replaceFuel]
        by_cases h : p ≠ [] ∧ p.isPrefixOf (c :: rest)
        · simp only [if_pos h]
          have hd : (rest.drop (p.length - 1)).length ≤ rest.length := by
            rw [List.length_drop]; omega
          have hlen : rest.length ≤ f := by simpa using Nat.succ_le_succ_iff.mp hf
          have hlen2 : rest.length ≤ g := by simpa using Nat.succ_le_succ_iff.mp hg
          rw [ih g (rest.drop (p.length - 1)) (le_trans hd hlen) (le_trans hd hlen2)]
        · simp only [if_neg h]
          have hlen : rest.length ≤ f := by simpa using Nat.succ_le_succ_iff.mp hf
          have hlen2 : rest.length ≤ g := by simpa using Nat.succ_le_succ_iff.mp hg
          rw [ih g rest hlen hlen2]

theorem replaceList_nil (p r : List Char) : replaceList p r [] = [] := rfl

/-- One unfolding step of `replaceList`. -/
theorem replaceList_cons (p r : List Char) (c : Char) (rest : List Char) :
    replaceList p r (c :: rest) =
      if p ≠ [] ∧ p.isPrefixOf (c :: rest) then
        r ++ replaceList p r (rest.drop (p.length - 1))
      else
        c :: replaceList p r rest := by
  show replaceFuel p r (rest.length + 1) (c :: rest) = _
  rw [replaceFuel]
  by_cases h : p ≠ [] ∧ p.isPrefixOf (c :: rest)
  · rw [if_pos h, if_pos h, replaceList,
      replaceFuel_congr p r rest.length (rest.drop (p.length - 1)).length
        (rest.drop (p.length - 1)) (by rw [List.length_drop]; omega) (le_refl _)]
  · rw [if_neg h, if_neg h, replaceList]

/-- A string with no occurrence of the pattern is left unchanged by the
replacement. -/
theorem replaceList_of_not_contains {p : List Char} (r : List Char) :
    ∀ s : List Char, containsSub p s = false → replaceList p r s = s := by
  intro s
  induction s with
  | nil => intro _; rfl
  | cons c rest ih =>
    intro h
    simp only [containsSub, Bool.or_eq_false_iff] at h
    rw [replaceList_cons, if_neg (by simp [h.1]), ih h.2]

/-- Replacing by `r` in the empty-pattern case never fires. -/
theorem replaceList_nil_pat (r : List Char) : ∀ s, replaceList [] r s = s := by
  intro s
  induction s with
  | nil => rfl
  | cons c rest ih => rw [replaceList_cons, if_neg (by simp), ih]

/-- When the pattern occurs, the replacement text occurs in the output. -/
theorem containsSub_replaceList_rep {p : List Char} (r : List Char) (hp : p ≠ []) :
    ∀ s : List Char, containsSub p s = true → containsSub r (replaceList p r s) = true := by
  intro s
  induction s with
  | nil =>
    intro h
    rw [containsSub] at h
    rcases pfxOf_iff.mp h with ⟨t, ht⟩
    exact absurd (List.append_eq_nil.mp ht.symm).1 hp
  | cons c rest ih =>
    intro h
    rw [replaceList_cons]
    by_cases hm : p ≠ [] ∧ p.isPrefixOf (c :: rest)
    · rw [if_pos hm]
      exact containsSub_append_left _ (containsSub_iff.mpr ⟨[], [], by simp⟩)
    · rw [if_neg hm]
      rw [containsSub, Bool.or_eq_true] at h
      rcases h with h | h
      · exact absurd ⟨hp, h⟩ hm
      · show containsSub r ([c] ++ replaceList p r rest) = true
        exact containsSub_append_right _ (ih h)

/-- Occurrence of `q` in the image under a character map `u` is preserved by a
replacement whose replacement text also carries `q` in its image.  This is the
workhorse for the case-insensitive LIMIT-preservation arguments. -/
theorem containsSub_map_replaceList {q p r : List Char} (u : Char → Char)
    (hr : containsSub q (r.map u) = true) :
    ∀ s : List Char, containsSub q (s.map u) = true →
      containsSub q ((replaceList p r s).map u) = true := by
  intro s
  induction s with
  | nil => intro h; simpa using h
  | cons c rest ih =>
    intro h
    rw [replaceList_cons]
    by_cases hm : p ≠ [] ∧ p.isPrefixOf (c :: rest)
    · rw [if_pos hm, List.map_append]
      exact containsSub_append_left _ hr
    · rw [if_neg hm]
      by_cases hpn : p = []
      · subst hpn
        rw [replaceList_nil_pat]
        simpa using h
      · simp only [List.map_cons, containsSub, Bool.or_eq_true] at h ⊢
        rcases h with h | h
        · -- q is a prefix of (c :: rest).map u
          by_cases hrest : containsSub p rest = true
          · exact Or.inr (containsSub_trans hr
              (containsSub_map u (containsSub_replaceList_rep r hpn rest hrest)))
          · have hrf : containsSub p rest = false := by simpa using hrest
            rw [replaceList_of_not_contains r rest hrf]
            exact Or.inl h
        · exact Or.inr (ih h)

/-! ### Part 7: the semicolon-before-LIMIT junction -/

/-- The last element of a list extended by one element. -/
theorem lastOfConcat (l : List Char) (a : Char) : (l ++ [a]).getLast? = some a :=
  List.getLast?_concat l

/-- If the scanned text still has at least one character of `B` in front of
the `";"`-plus-appended-LIMIT junction, the pattern `"; LIMIT"` does not match
at the current scan position, because `B ++ [';']` has no case-insensitive
LIMIT. -/
theorem semiJunction_not_pfx {B : List Char} (hB : B ≠ [])
    (h : containsSub "LIMIT".data ((B ++ [';']).map Char.toUpper) = false) :
    "; LIMIT".data.isPrefixOf (B ++ [';'] ++ " LIMIT 50".data) = false := by
  by_contra hc
  rw [Bool.not_eq_false] at hc
  obtain ⟨w, hw⟩ := pfxOf_iff.mp hc
  have hk2 : 2 ≤ (B ++ [';']).length := by
    rcases B with _ | ⟨b, bs⟩
    · exact absurd rfl hB
    · simp
  by_cases hlen : 7 ≤ (B ++ [';']).length
  · -- the whole pattern fits inside B ++ [';']
    have htake : (B ++ [';'] ++ " LIMIT 50".data).take 7 = (B ++ [';']).take 7 := by
      rw [List.take_append_eq_append_take, Nat.sub_eq_zero_of_le hlen, List.take_zero,
        List.append_nil]
    have htake2 : ("; LIMIT".data ++ w).take 7 = "; LIMIT".data := by
      have h7 : "; LIMIT".data.length = 7 := by decide
      rw [List.take_append_eq_append_take, h7]
      simp
    have hpfx : "; LIMIT".data = (B ++ [';']).take 7 := by
      rw [← htake, hw, htake2]
    have hcont : containsSub "; LIMIT".data (B ++ [';']) = true := by
      refine containsSub_iff.mpr ⟨[], (B ++ [';']).drop 7, ?_⟩
      rw [List.nil_append, hpfx, List.take_append_drop]
    have hup : containsSub "LIMIT".data ((B ++ [';']).map Char.toUpper) = true :=
      containsSub_trans (q := "LIMIT".data) (by decide)
        (containsSub_map Char.toUpper hcont)
    rw [hup] at h
    exact absurd h (by decide)
  · -- 2 ≤ |B ++ [';']| ≤ 6: then B ++ [';'] is a short piece of the pattern
    -- whose last character would have to be one of " LIMI", never ';'
    have hk6 : (B ++ [';']).length ≤ 6 := by omega
    have hlast : (B ++ [';']).getLast? = some ';' := lastOfConcat B ';'
    set k := (B ++ [';']).length with hkdef
    have htake : (B ++ [';'] ++ " LIMIT 50".data).take k = B ++ [';'] := by
      rw [List.take_append_eq_append_take, hkdef, Nat.sub_self, List.take_zero,
        List.append_nil, List.take_length]
    have htake2 : ("; LIMIT".data ++ w).take k = "; LIMIT".data.take k := by
      have h7 : "; LIMIT".data.length = 7 := by decide
      rw [List.take_append_eq_append_take, h7, Nat.sub_eq_zero_of_le (by omega),
        List.take_zero, List.append_nil]
    have hck : B ++ [';'] = "; LIMIT".data.take k := by
      rw [← htake, hw, htake2]
    rw [hck] at hlast
    interval_cases k <;> exact absurd hlast (by decide)

/-- Scanning `B ++ "; LIMIT 50"` with the `"; LIMIT"`-to-`" LIMIT"` rewrite,
where `B ++ [';']` has no case-insensitive LIMIT, rewrites exactly the
junction occurrence. -/
theorem replace_semi_junction :
    ∀ B : List Char, containsSub "LIMIT".data ((B ++ [';']).map Char.toUpper) = false →
    replaceList "; LIMIT".data " LIMIT".data (B ++ [';'] ++ " LIMIT 50".data) =
      B ++ " LIMIT 50".data := by
  intro B
  induction B with
  | nil => intro _; decide
  | cons b Bs ih =>
    intro h
    have hz : (b :: Bs) ++ [';'] ++ " LIMIT 50".data =
        b :: (Bs ++ [';'] ++ " LIMIT 50".data) := by simp
    have hnp : "; LIMIT".data.isPrefixOf ((b :: Bs) ++ [';'] ++ " LIMIT 50".data) = false :=
      semiJunction_not_pfx (List.cons_ne_nil b Bs) h
    rw [hz] at hnp
    have hsub : containsSub "LIMIT".data ((Bs ++ [';']).map Char.toUpper) = false := by
      by_contra hcc
      rw [Bool.not_eq_false] at hcc
      have hall : containsSub "LIMIT".data (((b :: Bs) ++ [';']).map Char.toUpper) = true := by
        have hmap : ((b :: Bs) ++ [';']).map Char.toUpper =
            [Char.toUpper b] ++ (Bs ++ [';']).map Char.toUpper := by simp
        rw [hmap]
        exact containsSub_append_right _ hcc
      rw [hall] at h
      exact absurd h (by decide)
    rw [hz, replaceList_cons,
      if_neg (fun hcond => by rw [hcond.2] at hnp; exact Bool.noConfusion hnp),
      ih hsub]
    simp

/-- In `B ++ " LIMIT 50"` with `B` free of case-insensitive LIMIT, the
adjacent pattern `";LIMIT"` does not occur anywhere. -/
theorem no_adjacent_semi_limit {B : List Char}
    (h : containsSub "LIMIT".data (B.map Char.toUpper) = false) :
    containsSub ";LIMIT".data (B ++ " LIMIT 50".data) = false := by
  by_contra hc
  rw [Bool.not_eq_false] at hc
  rcases containsSub_split hc with hin | hin | ⟨a2, b1, ha2, hb1, hp2, ⟨a1, ha1⟩, ⟨b2, hb2⟩⟩
  · have hup : containsSub "LIMIT".data (B.map Char.toUpper) = true :=
      containsSub_trans (q := "LIMIT".data) (by decide) (containsSub_map Char.toUpper hin)
    rw [hup] at h
    exact absurd h (by decide)
  · exact absurd hin (by decide)
  · have hk1 : 1 ≤ a2.length := by
      rcases a2 with _ | _
      · exact absurd rfl ha2
      · simp
    have hlen6 : a2.length + b1.length = 6 := by
      have hl : (";LIMIT".data).length = a2.length + b1.length := by
        rw [hp2, List.length_append]
      simpa using hl.symm
    have hk5 : a2.length ≤ 5 := by
      rcases b1 with _ | _
      · exact absurd rfl hb1
      · simp at hlen6; omega
    have hb1eq : b1 = ";LIMIT".data.drop a2.length := by
      rw [hp2, List.drop_left]
    have hb1eq2 : b1 = " LIMIT 50".data.take b1.length := by
      rw [hb2, List.take_left]
    have hblen : b1.length = 6 - a2.length := by omega
    have hcmp : ";LIMIT".data.drop a2.length = " LIMIT 50".data.take (6 - a2.length) := by
      rw [← hb1eq, ← hblen, ← hb1eq2]
    set k := a2.length with hkdef
    interval_cases k <;> exact absurd hcmp (by decide)

/-! ### Part 8: string-level helper lemmas -/

/-- A replacement whose pattern does not occur leaves the string unchanged. -/
theorem pyReplace_of_not_contains (s p r : String) (h : pyContains p s = false) :
    pyReplace s p r = s := by
  show String.mk (replaceList p.data r.data s.data) = s
  rw [replaceList_of_not_contains r.data s.data h]

/-- Unfolding lemma: the character data of a `pyReplace`. -/
theorem pyReplace_data (s p r : String) :
    (pyReplace s p r).data = replaceList p.data r.data s.data := rfl

/-- Unfolding lemma: the character data of the semicolon repair. -/
theorem fixSemicolonLimit_data (s : String) :
    (DatabaseAgent.fixSemicolonLimit s).data =
      replaceList ";LIMIT".data " LIMIT".data
        (replaceList "; LIMIT".data " LIMIT".data s.data) := rfl

/-- Unfolding lemma: the character data of a string append. -/
theorem strAppend_data (s t : String) : (s ++ t).data = s.data ++ t.data := rfl

/-- Appending text whose upper-case image carries `q` makes the upper-case
image of the result carry `q`. -/
theorem pyContains_upper_append (q s t : String)
    (ht : containsSub q.data (t.data.map Char.toUpper) = true) :
    pyContains q (pyUpper (s ++ t)) = true := by
  show containsSub q.data ((s.data ++ t.data).map Char.toUpper) = true
  rw [List.map_append]
  exact containsSub_append_right _ ht

/-- The LIMIT-append step of the default path always yields a text whose
upper-case image carries LIMIT. -/
theorem pyContains_upper_appendDefault (s : String) :
    pyContains "LIMIT" (pyUpper (DatabaseAgent.appendDefaultLimit s)) = true := by
  unfold DatabaseAgent.appendDefaultLimit
  by_cases h : pyContains "LIMIT" (pyUpper s) = true
  · rw [if_pos h]; exact h
  · rw [if_neg h]
    exact pyContains_upper_append "LIMIT" s " LIMIT 50" (by decide)

/-- The semicolon repair preserves a case-insensitive LIMIT occurrence. -/
theorem pyContains_upper_fixSemicolon (s : String)
    (h : pyContains "LIMIT" (pyUpper s) = true) :
    pyContains "LIMIT" (pyUpper (DatabaseAgent.fixSemicolonLimit s)) = true := by
  show containsSub "LIMIT".data
    ((replaceList ";LIMIT".data " LIMIT".data
      (replaceList "; LIMIT".data " LIMIT".data s.data)).map Char.toUpper) = true
  apply containsSub_map_replaceList Char.toUpper (by decide)
  apply containsSub_map_replaceList Char.toUpper (by decide)
  exact h

/-- A replacement relation with nonempty pattern relates the empty source
only to the empty target. -/
theorem replacedBy_nil_src {p r v u : List Char} (h : ReplacedBy p r v u) :
    v = [] → p ≠ [] → u = [] := by
  cases h with
  | nil => intro _ _; rfl
  | copy c h2 => intro hv _; simp at hv
  | rwStep h2 => intro hv hp; exact absurd (List.append_eq_nil.mp hv).1 hp

/-- Source-side inversion of the replacement relation at a cons. -/
theorem replacedBy_cons_inv {p r v u : List Char} (h : ReplacedBy p r v u) :
    ∀ {c : Char} {s : List Char}, v = c :: s →
      (∃ w, u = c :: w ∧ ReplacedBy p r s w) ∨
      (∃ s2 w, v = p ++ s2 ∧ u = r ++ w ∧ ReplacedBy p r s2 w) := by
  cases h with
  | nil => intro c s hv; simp at hv
  | copy c0 h2 =>
    intro c s hv
    injection hv with h1 h3
    subst h1
    subst h3
    exact Or.inl ⟨_, rfl, h2⟩
  | rwStep h2 =>
    intro c s _
    exact Or.inr ⟨_, _, rfl, rfl, h2⟩

/-- Target-side inversion of the replacement relation at a cons. -/
theorem replacedBy_tgt_inv {p r v u : List Char} (h : ReplacedBy p r v u) :
    ∀ {c : Char} {w : List Char}, u = c :: w →
      (∃ s2, v = c :: s2 ∧ ReplacedBy p r s2 w) ∨
      (∃ s2 t2, v = p ++ s2 ∧ u = r ++ t2 ∧ ReplacedBy p r s2 t2) := by
  cases h with
  | nil => intro c w hu; simp at hu
  | copy c0 h2 =>
    intro c w hu
    injection hu with h1 h3
    subst h1
    subst h3
    exact Or.inl ⟨_, rfl, h2⟩
  | rwStep h2 =>
    intro c w _
    exact Or.inr ⟨_, _, rfl, rfl, h2⟩

/-- A source prefix containing no possible start of the pattern is copied. -/
theorem replacedBy_src_copies {p r : List Char} (hp : p ≠ []) :
    ∀ (w : List Char) {t u : List Char}, (∀ c ∈ w, p.head? ≠ some c) →
      ReplacedBy p r (w ++ t) u →
      ∃ w2, u = w ++ w2 ∧ ReplacedBy p r t w2 := by
  intro w
  induction w with
  | nil => intro t u _ h; exact ⟨u, rfl, h⟩
  | cons c w2 ih =>
    intro t u hw h
    rcases replacedBy_cons_inv h rfl with ⟨u2, rfl, h2⟩ | ⟨s2, u2, hv, rfl, h2⟩
    · obtain ⟨u3, rfl, h3⟩ := ih (fun d hd => hw d (List.mem_cons_of_mem c hd)) h2
      exact ⟨u3, rfl, h3⟩
    · rcases p with _ | ⟨p0, pt⟩
      · exact absurd rfl hp
      · rw [List.cons_append] at hv
        injection hv with h1 _
        exact absurd (by rw [h1]; rfl) (hw c (List.mem_cons_self c w2))

/-- A target prefix containing no possible start of the replacement text was
copied from the source. -/
theorem replacedBy_tgt_copies {p r : List Char} (hr : r ≠ []) :
    ∀ (w : List Char) {s t : List Char}, (∀ c ∈ w, r.head? ≠ some c) →
      ReplacedBy p r s (w ++ t) →
      ∃ s2, s = w ++ s2 ∧ ReplacedBy p r s2 t := by
  intro w
  induction w with
  | nil => intro s t _ h; exact ⟨s, rfl, h⟩
  | cons c w2 ih =>
    intro s t hw h
    rcases replacedBy_tgt_inv h rfl with ⟨s2, rfl, h2⟩ | ⟨s2, t2, hv, hu, h2⟩
    · obtain ⟨s3, rfl, h3⟩ := ih (fun d hd => hw d (List.mem_cons_of_mem c hd)) h2
      exact ⟨s3, rfl, h3⟩
    · rcases r with _ | ⟨r0, rt⟩
      · exact absurd rfl hr
      · rw [List.cons_append] at hu
        injection hu with h1 _
        exact absurd (by rw [h1]; rfl) (hw c (List.mem_cons_self c w2))

/-- Every run of `replaceList` is one replacement pass: the output is the
input with some pattern occurrences replaced and all else copied. -/
theorem replacedBy_of_replaceList {p r : List Char} (hp : p ≠ []) :
    ∀ (n : Nat) (s : List Char), s.length ≤ n →
      ReplacedBy p r s (replaceList p r s) := by
  intro n
  induction n with
  | zero =>
    intro s hs
    rcases List.length_eq_zero.mp (Nat.le_zero.mp hs) with rfl
    exact ReplacedBy.nil
  | succ n ih =>
    intro s hs
    cases s with
    | nil => exact ReplacedBy.nil
    | cons c rest =>
      rw [replaceList_cons]
      by_cases hm : p ≠ [] ∧ p.isPrefixOf (c :: rest)
      · rw [if_pos hm]
        obtain ⟨t, ht⟩ := pfxOf_iff.mp hm.2
        rcases p with _ | ⟨p0, pt⟩
        · exact absurd rfl hp
        · rw [List.cons_append] at ht
          injection ht with h1 h2
          have hdrop : rest.drop ((p0 :: pt).length - 1) = t := by
            rw [h2]
            simp only [List.length_cons, Nat.add_sub_cancel]
            exact List.drop_left pt t
          rw [hdrop]
          have hlt : t.length ≤ n := by
            have hrl : rest.length ≤ n := by simpa using Nat.succ_le_succ_iff.mp hs
            rw [h2, List.length_append] at hrl
            omega
          rw [h1, h2]
          exact ReplacedBy.rwStep (ih t hlt)
      · rw [if_neg hm]
        have hrl : rest.length ≤ n := by simpa using Nat.succ_le_succ_iff.mp hs
        exact ReplacedBy.copy c (ih rest hrl)

/-- Composing the `"; LIMIT"` pass with the `";LIMIT"` pass yields a semicolon
repair of the original text: each occurrence rewritten by the second pass lies
in a region the first pass copied, because the replacement text `" LIMIT"`
contains no semicolon and the pattern tails contain no space. -/
theorem semiRepair_compose :
    ∀ (n : Nat) (s t u : List Char), s.length ≤ n →
      ReplacedBy "; LIMIT".data " LIMIT".data s t →
      ReplacedBy ";LIMIT".data " LIMIT".data t u →
      SemiRepair s u := by
  intro n
  induction n with
  | zero =>
    intro s t u hs h1 h2
    rcases List.length_eq_zero.mp (Nat.le_zero.mp hs) with rfl
    have ht := replacedBy_nil_src h1 rfl (by decide)
    subst ht
    have hu := replacedBy_nil_src h2 rfl (by decide)
    subst hu
    exact SemiRepair.nil
  | succ n ih =>
    intro s t u hs h1 h2
    cases h1 with
    | nil =>
      have hu := replacedBy_nil_src h2 rfl (by decide)
      subst hu
      exact SemiRepair.nil
    | copy c h1a =>
      rename_i s0 t0
      by_cases hc : c = ';'
      · subst hc
        rcases replacedBy_cons_inv h2 rfl with ⟨u2, rfl, h2a⟩ | ⟨s2, u2, hv, rfl, h2a⟩
        · exact SemiRepair.copy ';'
            (ih s0 t0 u2 (by simpa using Nat.succ_le_succ_iff.mp hs) h1a h2a)
        · have ht0 : t0 = "LIMIT".data ++ s2 := by
            have hv2 : (';' : Char) :: t0 = ';' :: ("LIMIT".data ++ s2) := hv
            simpa using hv2
          obtain ⟨s1, rfl, h1b⟩ := replacedBy_tgt_copies (p := "; LIMIT".data)
            (by decide) "LIMIT".data (by decide) (ht0 ▸ h1a)
          have hlen : s1.length ≤ n := by
            have h5 : ("LIMIT".data : List Char).length = 5 := by decide
            simp only [List.length_cons, List.length_append, h5] at hs
            omega
          exact SemiRepair.fixTight (ih s1 s2 u2 hlen h1b h2a)
      · rcases replacedBy_cons_inv h2 rfl with ⟨u2, rfl, h2a⟩ | ⟨s2, u2, hv, rfl, h2a⟩
        · exact SemiRepair.copy c
            (ih s0 t0 u2 (by simpa using Nat.succ_le_succ_iff.mp hs) h1a h2a)
        · have h3 : c = ';' ∧ t0 = "LIMIT".data ++ s2 := by
            have hv2 : c :: t0 = ';' :: ("LIMIT".data ++ s2) := hv
            simpa using hv2
          exact absurd h3.1 hc
    | rwStep h1a =>
      rename_i s0 t0
      obtain ⟨u2, rfl, h2a⟩ := replacedBy_src_copies (p := ";LIMIT".data)
        (by decide) " LIMIT".data (by decide) h2
      have hlen : s0.length ≤ n := by
        have h7 : ("; LIMIT".data : List Char).length = 7 := by decide
        simp only [List.length_append, h7] at hs
        omega
      exact SemiRepair.fixSpace (ih s0 t0 u2 hlen h1a h2a)

/-- The two-pass semicolon repair of the source is a `SemiRepair` of its
input: it replaces occurrences of the two patterns and copies every other
character, in particular every other semicolon, unchanged. -/
theorem fixSemicolonLimit_semiRepair (s : String) :
    SemiRepair s.data (DatabaseAgent.fixSemicolonLimit s).data := by
  rw [fixSemicolonLimit_data]
  exact semiRepair_compose s.data.length s.data _ _ (le_refl _)
    (replacedBy_of_replaceList (by decide) s.data.length s.data (le_refl _))
    (replacedBy_of_replaceList (by decide)
      (replaceList "; LIMIT".data " LIMIT".data s.data).length _ (le_refl _))

/-! ### Part 9: the claims -/

/-- C2, counterexample: the chart-type path does not apply the
semicolon-before-LIMIT rewrite, so the end-to-end scenario fails there: the
raw text `"SELECT a FROM t; LIMIT 10"` keeps its semicolon. -/
theorem claim_C2_cex :
    DatabaseAgent.generateChartSpecificSql "SELECT a FROM t; LIMIT 10" "PieChart" =
      "SELECT a FROM t; LIMIT 10" ∧
    DatabaseAgent.generateChartSpecificSql "SELECT a FROM t; LIMIT 10" "PieChart" ≠
      "SELECT a FROM t LIMIT 10" := by decide

/-- C2, amended: the default path applies the semicolon-before-LIMIT rewrite
(scenario 2 holds there); the chart-type path applies no rewrite and returns
the cleaned text with its semicolon intact for every chart type; and on every
input the rewrite output is the input with some occurrences of `"; LIMIT"` or
`";LIMIT"` replaced by `" LIMIT"` and every other character — in particular
every other semicolon — copied verbatim (`SemiRepair`), e.g.
`"a; b; LIMIT x"` becomes `"a; b LIMIT x"` with the first semicolon intact. -/
theorem claim_C2_amended :
    DatabaseAgent.guardedDefaultSql "SELECT a FROM t; LIMIT 10" = "SELECT a FROM t LIMIT 10" ∧
    (∀ chart_type : String,
      DatabaseAgent.generateChartSpecificSql "SELECT a FROM t; LIMIT 10" chart_type =
        "SELECT a FROM t; LIMIT 10") ∧
    (∀ s : String, SemiRepair s.data (DatabaseAgent.fixSemicolonLimit s).data) ∧
    DatabaseAgent.fixSemicolonLimit "a; b; LIMIT x" = "a; b LIMIT x" := by
  refine ⟨by decide, ?_, fixSemicolonLimit_semiRepair, by decide⟩
  intro chart_type
  simp only [DatabaseAgent.generateChartSpecificSql]
  rw [if_pos (by decide :
    pyContains "LIMIT"
      (pyUpper (DatabaseAgent.cleanGeneratedSql "SELECT a FROM t; LIMIT 10")) = true)]
  decide

/-- C3, counterexample: the semicolon rewrite is not idempotent.  On
`";; LIMIT"` the first pass yields `"; LIMIT"` (the scan resumes after the
replacement), and a second pass rewrites again. -/
theorem claim_C3_cex :
    DatabaseAgent.fixSemicolonLimit ";; LIMIT" = "; LIMIT" ∧
    DatabaseAgent.fixSemicolonLimit (DatabaseAgent.fixSemicolonLimit ";; LIMIT") = " LIMIT" ∧
    DatabaseAgent.fixSemicolonLimit (DatabaseAgent.fixSemicolonLimit ";; LIMIT") ≠
      DatabaseAgent.fixSemicolonLimit ";; LIMIT" := by decide

/-- C3, amended: the rewrite is idempotent on every input whose once-rewritten
form contains neither `"; LIMIT"` nor `";LIMIT"` (the counterexample shows
that a rewrite output can itself contain the pattern again, exactly when a
second semicolon preceded a rewritten occurrence). -/
theorem claim_C3_amended :
    ∀ s : String,
      pyContains "; LIMIT" (DatabaseAgent.fixSemicolonLimit s) = false →
      pyContains ";LIMIT" (DatabaseAgent.fixSemicolonLimit s) = false →
      DatabaseAgent.fixSemicolonLimit (DatabaseAgent.fixSemicolonLimit s) =
        DatabaseAgent.fixSemicolonLimit s := by
  intro s h1 h2
  show pyReplace (pyReplace (DatabaseAgent.fixSemicolonLimit s) "; LIMIT" " LIMIT")
      ";LIMIT" " LIMIT" = DatabaseAgent.fixSemicolonLimit s
  rw [pyReplace_of_not_contains _ "; LIMIT" " LIMIT" h1]
  exact pyReplace_of_not_contains _ ";LIMIT" " LIMIT" h2

/-- C3, witness: the amended idempotence applied to the spec's end-to-end
scenario text. -/
theorem claim_C3_witness :
    DatabaseAgent.fixSemicolonLimit
        (DatabaseAgent.fixSemicolonLimit "SELECT a FROM t; LIMIT 10") =
      DatabaseAgent.fixSemicolonLimit "SELECT a FROM t; LIMIT 10" :=
  claim_C3_amended "SELECT a FROM t; LIMIT 10" (by decide) (by decide)

/-- C4, counterexample: with four truthy resolved location ids, all four reach
the location-expansion method of the graph collaborator (the `[:3]` slice at
line 172 of `context_resolver.py` only truncates a progress log). -/
theorem claim_C4_cex :
    (ContextResolver.expandContextViaGraph spyGremlin fourLocationEntities).expanded_locations =
      ["L1", "L2", "L3", "L4"] ∧
    ¬ (ContextResolver.expandContextViaGraph spyGremlin
        fourLocationEntities).expanded_locations.length ≤ 3 := by decide

/-- C4, amended: when the graph is reachable and at least one truthy location
id was resolved, the ContextResolver passes the full resolved location id list
to the location-expansion method; no cap of 3 is applied to the argument. -/
theorem claim_C4_amended :
    ∀ (graph : ContextResolver.GremlinConnection) (entities : ContextResolver.Entities),
      graph.connected = true →
      ContextResolver.resolvedLocationIds entities ≠ [] →
      (ContextResolver.expandContextViaGraph graph entities).expanded_locations =
        graph.expandLocationContext (ContextResolver.resolvedLocationIds entities) := by
  intro graph entities hg hne
  simp [ContextResolver.expandContextViaGraph, hg, hne]

/-- C4, witness: the amended theorem applied to the four-location entity set
and the spy collaborator. -/
theorem claim_C4_witness :
    (ContextResolver.expandContextViaGraph spyGremlin fourLocationEntities).expanded_locations =
      spyGremlin.expandLocationContext (ContextResolver.resolvedLocationIds fourLocationEntities) :=
  claim_C4_amended spyGremlin fourLocationEntities (by decide) (by decide)

/-- C8: when the graph collaborator is unavailable, context resolution still
returns a (non-error) `ResolvedContext` whose three expansion lists are all
empty, for every resolved-entity set and metadata. -/
theorem claim_C8 :
    ∀ (graph : ContextResolver.GremlinConnection) (entities : ContextResolver.Entities)
      (metadata : String),
      graph.connected = false →
      (ContextResolver.resolveQueryContext graph entities metadata).products.expanded = [] ∧
      (ContextResolver.resolveQueryContext graph entities metadata).locations.expanded = [] ∧
      (ContextResolver.resolveQueryContext graph entities metadata).events.related_events = [] := by
  intro graph entities metadata hg
  simp [ContextResolver.resolveQueryContext, ContextResolver.expandContextViaGraph, hg]

/-- C8, witness: the offline collaborator (whose oracles would return nonempty
lists if consulted) still produces empty expansions on a nonempty entity set. -/
theorem claim_C8_witness :
    (ContextResolver.resolveQueryContext offlineGremlin fourLocationEntities "meta").products.expanded = [] ∧
    (ContextResolver.resolveQueryContext offlineGremlin fourLocationEntities "meta").locations.expanded = [] ∧
    (ContextResolver.resolveQueryContext offlineGremlin fourLocationEntities "meta").events.related_events = [] :=
  claim_C8 offlineGremlin fourLocationEntities "meta" (by decide)

/-- C5, counterexample: on the chart-type path a database failure after SQL
generation yields a failed response that does not carry the attempted SQL
text (its handler omits the `sql_query` key). -/
theorem claim_C5_cex :
    (DatabaseAgent.queryDatabaseForChart String (Except.ok "ctx") (Except.ok "SELECT 1")
        "PieChart" (fun _ => Except.error "db down")).status = "failed" ∧
    (DatabaseAgent.queryDatabaseForChart String (Except.ok "ctx") (Except.ok "SELECT 1")
        "PieChart" (fun _ => Except.error "db down")).sql_query = none := by decide

/-- C5, amended: a fatal database failure after SQL was produced yields a
`status = "failed"` response on both paths, but only the default path carries
the attempted SQL text; the chart-type path omits it. -/
theorem claim_C5_amended :
    (∀ (Row : Type) (summary content e : String)
        (execute : String → Except String (List String × List Row)),
      execute (DatabaseAgent.fixSemicolonLimit (DatabaseAgent.generateSqlWithContext content)) =
        Except.error e →
      (DatabaseAgent.queryDatabase Row (Except.ok summary) (Except.ok content) execute).status =
        "failed" ∧
      (DatabaseAgent.queryDatabase Row (Except.ok summary) (Except.ok content) execute).sql_query =
        some (DatabaseAgent.fixSemicolonLimit (DatabaseAgent.generateSqlWithContext content)))
  ∧ (∀ (Row : Type) (summary content chart_type e : String)
        (execute : String → Except String (List String × List Row)),
      execute (DatabaseAgent.generateChartSpecificSql content chart_type) = Except.error e →
      (DatabaseAgent.queryDatabaseForChart Row (Except.ok summary) (Except.ok content)
          chart_type execute).status = "failed" ∧
      (DatabaseAgent.queryDatabaseForChart Row (Except.ok summary) (Except.ok content)
          chart_type execute).sql_query = none) := by
  constructor
  · intro Row summary content e execute h
    simp [DatabaseAgent.queryDatabase, h]
  · intro Row summary content chart_type e execute h
    simp [DatabaseAgent.queryDatabaseForChart, h]

/-- C5, witness: the amended theorem at a concrete failing execution. -/
theorem claim_C5_witness :
    (DatabaseAgent.queryDatabase String (Except.ok "ctx") (Except.ok "SELECT 1")
        (fun _ => Except.error "db down")).status = "failed" ∧
    (DatabaseAgent.queryDatabase String (Except.ok "ctx") (Except.ok "SELECT 1")
        (fun _ => Except.error "db down")).sql_query =
      some (DatabaseAgent.fixSemicolonLimit (DatabaseAgent.generateSqlWithContext "SELECT 1")) :=
  claim_C5_amended.1 String "ctx" "SELECT 1" "db down" (fun _ => Except.error "db down") rfl

/-- C6: when the cleaned generated text lacks a case-insensitive LIMIT, the
chart path appends exactly the table-defined limit for every chart type
(10 for PieChart, 20 for BarChart/ColumnChart, 50 for LineChart, 100 for
ScatterChart); any chart type outside the fixed enumeration gets the default
limit 50 and the generic shape requirement, and no error is possible (both
lookups are total functions). -/
theorem claim_C6 :
    (∀ (content chart_type : String),
      pyContains "LIMIT" (pyUpper (DatabaseAgent.cleanGeneratedSql content)) = false →
      DatabaseAgent.generateChartSpecificSql content chart_type =
        DatabaseAgent.cleanGeneratedSql content ++
          (" LIMIT " ++ toString (chartLimitTable chart_type)))
  ∧ chartLimitTable "PieChart" = 10
  ∧ chartLimitTable "BarChart" = 20
  ∧ chartLimitTable "ColumnChart" = 20
  ∧ chartLimitTable "LineChart" = 50
  ∧ chartLimitTable "ScatterChart" = 100
  ∧ (∀ chart_type : String, chart_type ∉ chartTypeEnumeration →
      chartLimitTable chart_type = 50)
  ∧ (∀ chart_type : String, chart_type ∉ chartTypeEnumeration →
      DatabaseAgent.chartRequirements chart_type = "Return relevant data") := by
  refine ⟨?_, by decide, by decide, by decide, by decide, by decide, ?_, ?_⟩
  · intro content chart_type h
    simp only [DatabaseAgent.generateChartSpecificSql, chartLimitTable]
    rw [if_neg (by simp [h])]
    by_cases h1 : chart_type = "PieChart"
    · simp only [if_pos h1]
      exact congrArg (fun t => DatabaseAgent.cleanGeneratedSql content ++ t) (by decide)
    · simp only [if_neg h1]
      by_cases h2 : chart_type = "BarChart" ∨ chart_type = "ColumnChart"
      · simp only [if_pos h2]
        exact congrArg (fun t => DatabaseAgent.cleanGeneratedSql content ++ t) (by decide)
      · simp only [if_neg h2]
        by_cases h3 : chart_type = "LineChart"
        · simp only [if_pos h3]
          exact congrArg (fun t => DatabaseAgent.cleanGeneratedSql content ++ t) (by decide)
        · simp only [if_neg h3]
          by_cases h4 : chart_type = "ScatterChart"
          · simp only [if_pos h4]
            exact congrArg (fun t => DatabaseAgent.cleanGeneratedSql content ++ t) (by decide)
          · simp only [if_neg h4]
            exact congrArg (fun t => DatabaseAgent.cleanGeneratedSql content ++ t) (by decide)
  · intro chart_type h
    have h1 : chart_type ≠ "PieChart" := fun he => h (by rw [he]; decide)
    have h2 : ¬ (chart_type = "BarChart" ∨ chart_type = "ColumnChart") := by
      rintro (he | he) <;> exact h (by rw [he]; decide)
    have h3 : chart_type ≠ "LineChart" := fun he => h (by rw [he]; decide)
    have h4 : chart_type ≠ "ScatterChart" := fun he => h (by rw [he]; decide)
    simp [chartLimitTable, h1, h2, h3, h4]
  · intro chart_type h
    have h1 : chart_type ≠ "PieChart" := fun he => h (by rw [he]; decide)
    have h2 : chart_type ≠ "BarChart" := fun he => h (by rw [he]; decide)
    have h3 : chart_type ≠ "LineChart" := fun he => h (by rw [he]; decide)
    have h4 : chart_type ≠ "AreaChart" := fun he => h (by rw [he]; decide)
    have h5 : chart_type ≠ "ScatterChart" := fun he => h (by rw [he]; decide)
    have h6 : chart_type ≠ "GeoChart" := fun he => h (by rw [he]; decide)
    have h7 : chart_type ≠ "Table" := fun he => h (by rw [he]; decide)
    have h8 : chart_type ≠ "Histogram" := fun he => h (by rw [he]; decide)
    have h9 : chart_type ≠ "ColumnChart" := fun he => h (by rw [he]; decide)
    simp [DatabaseAgent.chartRequirements, h1, h2, h3, h4, h5, h6, h7, h8, h9]

/-- C6, witness: the enumerated PieChart case and an unrecognized chart type,
which falls back to the default limit and generic requirement. -/
theorem claim_C6_witness :
    DatabaseAgent.generateChartSpecificSql "SELECT 1" "PieChart" =
      DatabaseAgent.cleanGeneratedSql "SELECT 1" ++
        (" LIMIT " ++ toString (chartLimitTable "PieChart")) ∧
    chartLimitTable "FooChart" = 50 ∧
    DatabaseAgent.chartRequirements "FooChart" = "Return relevant data" :=
  ⟨claim_C6.1 "SELECT 1" "PieChart" (by decide),
   claim_C6.2.2.2.2.2.2.1 "FooChart" (by decide),
   claim_C6.2.2.2.2.2.2.2 "FooChart" (by decide)⟩

/-- The executable comparator agrees with the lexicographic order. -/
theorem lexLtChars_iff : ∀ x y : List Char,
    lexLtChars x y = true ↔ List.Lex (· < ·) x y := by
  intro x
  induction x with
  | nil =>
    intro y
    cases y with
    | nil =>
      exact iff_of_false (by decide) (fun h => by cases h)
    | cons b bs =>
      exact iff_of_true rfl List.Lex.nil
  | cons a as ih =>
    intro y
    cases y with
    | nil =>
      exact iff_of_false (fun h => Bool.noConfusion h) (fun h => by cases h)
    | cons b bs =>
      simp only [lexLtChars]
      by_cases hab : a < b
      · rw [if_pos hab]
        exact iff_of_true rfl (List.Lex.rel hab)
      · rw [if_neg hab]
        by_cases hba : b < a
        · rw [if_pos hba]
          refine iff_of_false (fun h => Bool.noConfusion h) (fun h => ?_)
          cases h with
          | cons h2 => exact absurd hba (lt_irrefl a)
          | rel h2 => exact hab h2
        · rw [if_neg hba]
          have heq : a = b := le_antisymm (not_lt.mp hba) (not_lt.mp hab)
          subst heq
          rw [ih bs]
          exact List.Lex.cons_iff.symm

/-- The executable comparator agrees with the order on strings. -/
theorem lexLtChars_str_iff (a b : String) :
    lexLtChars a.data b.data = true ↔ a < b := by
  rw [lexLtChars_iff a.data b.data]
  exact (String.lt_iff_toList_lt).symm

/-- The fold inside `pyMinStr` returns its accumulator or a list element. -/
theorem minFold_mem : ∀ (rest : List String) (a : String),
    rest.foldl (fun m x => if lexLtChars x.data m.data then x else m) a = a ∨
    rest.foldl (fun m x => if lexLtChars x.data m.data then x else m) a ∈ rest := by
  intro rest
  induction rest with
  | nil => intro a; exact Or.inl rfl
  | cons r rest ih =>
    intro a
    simp only [List.foldl_cons]
    rcases ih (if lexLtChars r.data a.data then r else a) with h | h
    · rw [h]
      by_cases hc : lexLtChars r.data a.data = true
      · rw [if_pos hc]; exact Or.inr (List.mem_cons_self r rest)
      · rw [if_neg hc]; exact Or.inl rfl
    · exact Or.inr (List.mem_cons_of_mem r h)

/-- No element of the scanned list is strictly below the `pyMinStr` fold. -/
theorem minFold_not_lt : ∀ (rest : List String) (a x : String), x ∈ a :: rest →
    ¬ x < rest.foldl (fun m x => if lexLtChars x.data m.data then x else m) a := by
  intro rest
  induction rest with
  | nil =>
    intro a x hx
    rw [List.mem_singleton] at hx
    subst hx
    exact lt_irrefl x
  | cons r rest ih =>
    intro a x hx
    simp only [List.foldl_cons]
    rcases List.mem_cons.mp hx with h0 | hx2
    · subst h0
      by_cases hc : lexLtChars r.data x.data = true
      · have hra : r < x := (lexLtChars_str_iff r x).mp hc
        rw [if_pos hc]
        have hnr : ¬ r < rest.foldl
            (fun m y => if lexLtChars y.data m.data then y else m) r :=
          ih r r (List.mem_cons_self r rest)
        intro hlt
        exact hnr (lt_trans hra hlt)
      · rw [if_neg hc]
        exact ih x x (List.mem_cons_self x rest)
    · rcases List.mem_cons.mp hx2 with h0 | hx3
      · subst h0
        by_cases hc : lexLtChars x.data a.data = true
        · rw [if_pos hc]
          exact ih x x (List.mem_cons_self x rest)
        · have hnra : ¬ x < a := fun hl => hc ((lexLtChars_str_iff x a).mpr hl)
          rw [if_neg hc]
          have hna : ¬ a < rest.foldl
              (fun m y => if lexLtChars y.data m.data then y else m) a :=
            ih a a (List.mem_cons_self a rest)
          intro hxM
          rcases lt_trichotomy a x with h1 | h1 | h1
          · exact hna (lt_trans h1 hxM)
          · exact hna (h1 ▸ hxM)
          · exact hnra h1
      · exact ih _ x (List.mem_cons_of_mem _ hx3)

/-- The fold inside `pyMaxStr` returns its accumulator or a list element. -/
theorem maxFold_mem : ∀ (rest : List String) (a : String),
    rest.foldl (fun m x => if lexLtChars m.data x.data then x else m) a = a ∨
    rest.foldl (fun m x => if lexLtChars m.data x.data then x else m) a ∈ rest := by
  intro rest
  induction rest with
  | nil => intro a; exact Or.inl rfl
  | cons r rest ih =>
    intro a
    simp only [List.foldl_cons]
    rcases ih (if lexLtChars a.data r.data then r else a) with h | h
    · rw [h]
      by_cases hc : lexLtChars a.data r.data = true
      · rw [if_pos hc]; exact Or.inr (List.mem_cons_self r rest)
      · rw [if_neg hc]; exact Or.inl rfl
    · exact Or.inr (List.mem_cons_of_mem r h)

/-- No element of the scanned list is strictly above the `pyMaxStr` fold. -/
theorem maxFold_not_lt : ∀ (rest : List String) (a x : String), x ∈ a :: rest →
    ¬ rest.foldl (fun m x => if lexLtChars m.data x.data then x else m) a < x := by
  intro rest
  induction rest with
  | nil =>
    intro a x hx
    rw [List.mem_singleton] at hx
    subst hx
    exact lt_irrefl x
  | cons r rest ih =>
    intro a x hx
    simp only [List.foldl_cons]
    rcases List.mem_cons.mp hx with h0 | hx2
    · subst h0
      by_cases hc : lexLtChars x.data r.data = true
      · have hxr : x < r := (lexLtChars_str_iff x r).mp hc
        rw [if_pos hc]
        have hnr : ¬ rest.foldl
            (fun m y => if lexLtChars m.data y.data then y else m) r < r :=
          ih r r (List.mem_cons_self r rest)
        intro hlt
        exact hnr (lt_trans hlt hxr)
      · rw [if_neg hc]
        exact ih x x (List.mem_cons_self x rest)
    · rcases List.mem_cons.mp hx2 with h0 | hx3
      · subst h0
        by_cases hc : lexLtChars a.data x.data = true
        · rw [if_pos hc]
          exact ih x x (List.mem_cons_self x rest)
        · have hnax : ¬ a < x := fun hl => hc ((lexLtChars_str_iff a x).mpr hl)
          rw [if_neg hc]
          have hna : ¬ rest.foldl
              (fun m y => if lexLtChars m.data y.data then y else m) a < a :=
            ih a a (List.mem_cons_self a rest)
          intro hMx
          rcases lt_trichotomy a x with h1 | h1 | h1
          · exact hnax h1
          · exact hna (h1 ▸ hMx)
          · exact hna (lt_trans hMx h1)
      · exact ih _ x (List.mem_cons_of_mem _ hx3)

/-- C9: the date-range field is `None` exactly when no truthy resolved date
value exists, and otherwise is the pair of the lexicographic minimum and
maximum of the converted date values; `pyMinStr`/`pyMaxStr` are proved to
return a member of the list that no element is below (resp. above), i.e. the
true minimum and maximum in the string order. -/
theorem claim_C9 :
    (∀ dates : List ContextResolver.SearchEntity,
      (ContextResolver.extractDateRange dates = none ↔
        ContextResolver.resolvedDateValues dates = []) ∧
      (∀ mn mx : String,
        pyMinStr (ContextResolver.resolvedDateValues dates) = some mn →
        pyMaxStr (ContextResolver.resolvedDateValues dates) = some mx →
        ContextResolver.extractDateRange dates = some (mn, mx)))
  ∧ (∀ (l : List String) (m : String), pyMinStr l = some m →
      m ∈ l ∧ ∀ x ∈ l, ¬ x < m)
  ∧ (∀ (l : List String) (m : String), pyMaxStr l = some m →
      m ∈ l ∧ ∀ x ∈ l, ¬ m < x) := by
  refine ⟨?_, ?_, ?_⟩
  · intro dates
    constructor
    · by_cases he : dates.isEmpty = true
      · have hd : dates = [] := by
          cases dates with
          | nil => rfl
          | cons d ds => exact absurd he (by simp [List.isEmpty])
        subst hd
        simp [ContextResolver.extractDateRange, ContextResolver.resolvedDateValues]
      · rw [ContextResolver.extractDateRange, if_neg he]
        cases hv : ContextResolver.resolvedDateValues dates with
        | nil => simp [pyMinStr]
        | cons d ds => simp [pyMinStr, pyMaxStr]
    · intro mn mx hmn hmx
      have hne : ContextResolver.resolvedDateValues dates ≠ [] := by
        intro h
        rw [h] at hmn
        exact Option.noConfusion hmn
      have hd : dates ≠ [] := by
        intro h
        exact hne (by rw [h]; rfl)
      have he : ¬ dates.isEmpty = true := by
        cases dates with
        | nil => exact absurd rfl hd
        | cons d ds => simp [List.isEmpty]
      rw [ContextResolver.extractDateRange, if_neg he, hmn, hmx]
  · intro l m hm
    cases l with
    | nil => exact Option.noConfusion hm
    | cons a rest =>
      have hmval := Option.some.inj hm
      constructor
      · rcases minFold_mem rest a with h | h
        · rw [← hmval, h]; exact List.mem_cons_self a rest
        · rw [← hmval]; exact List.mem_cons_of_mem a h
      · intro x hx
        rw [← hmval]
        exact minFold_not_lt rest a x hx
  · intro l m hm
    cases l with
    | nil => exact Option.noConfusion hm
    | cons a rest =>
      have hmval := Option.some.inj hm
      constructor
      · rcases maxFold_mem rest a with h | h
        · rw [← hmval, h]; exact List.mem_cons_self a rest
        · rw [← hmval]; exact List.mem_cons_of_mem a h
      · intro x hx
        rw [← hmval]
        exact maxFold_not_lt rest a x hx

/-- C9, witness: a concrete entity list mixing a plain date, an Excel serial,
an empty date and a missing date; the range is the (converted) minimum and
maximum. -/
theorem claim_C9_witness :
    ContextResolver.extractDateRange
        [⟨none, some "2025-11-08"⟩, ⟨none, some "45000"⟩, ⟨none, some ""⟩, ⟨none, none⟩] =
      some ("2023-03-15", "2025-11-08") :=
  (claim_C9.1 [⟨none, some "2025-11-08"⟩, ⟨none, some "45000"⟩,
    ⟨none, some ""⟩, ⟨none, none⟩]).2 "2023-03-15" "2025-11-08" (by decide) (by decide)

/-- C1, counterexample: the sanitization only appends a LIMIT when none is
present; a raw text already containing two LIMIT tokens passes through with
both, so the output does not contain exactly one case-insensitive LIMIT. -/
theorem claim_C1_cex :
    occurrences "LIMIT".data
      (pyUpper (DatabaseAgent.guardedDefaultSql "SELECT a FROM t LIMIT 10 LIMIT 20")).data = 2 ∧
    (2 : Nat) ≠ 1 := by decide

/-- C1, amended: the guard output contains at least one case-insensitive
LIMIT occurrence — on the default path and on the chart path — and when the
cleaned input contains none, exactly `" LIMIT 50"` is appended. -/
theorem claim_C1_amended :
    (∀ content : String,
      pyContains "LIMIT" (pyUpper (DatabaseAgent.guardedDefaultSql content)) = true)
  ∧ (∀ content chart_type : String,
      pyContains "LIMIT"
        (pyUpper (DatabaseAgent.generateChartSpecificSql content chart_type)) = true)
  ∧ (∀ content : String,
      pyContains "LIMIT" (pyUpper (DatabaseAgent.cleanGeneratedSql content)) = false →
      DatabaseAgent.generateSqlWithContext content =
        DatabaseAgent.cleanGeneratedSql content ++ " LIMIT 50") := by
  refine ⟨?_, ?_, ?_⟩
  · intro content
    exact pyContains_upper_fixSemicolon _
      (pyContains_upper_appendDefault (DatabaseAgent.cleanGeneratedSql content))
  · intro content chart_type
    simp only [DatabaseAgent.generateChartSpecificSql]
    by_cases h : pyContains "LIMIT" (pyUpper (DatabaseAgent.cleanGeneratedSql content)) = true
    · rw [if_pos h]; exact h
    · rw [if_neg h]
      by_cases h1 : chart_type = "PieChart"
      · rw [if_pos h1]; exact pyContains_upper_append "LIMIT" _ " LIMIT 10" (by decide)
      · rw [if_neg h1]
        by_cases h2 : chart_type = "BarChart" ∨ chart_type = "ColumnChart"
        · rw [if_pos h2]; exact pyContains_upper_append "LIMIT" _ " LIMIT 20" (by decide)
        · rw [if_neg h2]
          by_cases h3 : chart_type = "LineChart"
          · rw [if_pos h3]; exact pyContains_upper_append "LIMIT" _ " LIMIT 50" (by decide)
          · rw [if_neg h3]
            by_cases h4 : chart_type = "ScatterChart"
            · rw [if_pos h4]; exact pyContains_upper_append "LIMIT" _ " LIMIT 100" (by decide)
            · rw [if_neg h4]; exact pyContains_upper_append "LIMIT" _ " LIMIT 50" (by decide)
  · intro content h
    unfold DatabaseAgent.generateSqlWithContext DatabaseAgent.appendDefaultLimit
    rw [if_neg (by simp [h])]

/-- C1, witness: the default guard of a plain text, whose cleaned form lacks
LIMIT and receives the appended default. -/
theorem claim_C1_witness :
    pyContains "LIMIT" (pyUpper (DatabaseAgent.guardedDefaultSql "SELECT 1")) = true ∧
    DatabaseAgent.generateSqlWithContext "SELECT 1" =
      DatabaseAgent.cleanGeneratedSql "SELECT 1" ++ " LIMIT 50" :=
  ⟨claim_C1_amended.1 "SELECT 1", claim_C1_amended.2.2 "SELECT 1" (by decide)⟩

/-- C10, counterexample: quantifying over the raw generated text fails,
because deleting an interior code fence can fabricate a LIMIT substring: the
raw text ends with a semicolon and contains no case-insensitive LIMIT, yet
the guarded SQL is `"LIMIT 5;"`, which does not end with `" LIMIT 50"`. -/
theorem claim_C10_cex :
    "LI```sqlMIT 5;".data.getLast? = some ';' ∧
    pyContains "LIMIT" (pyUpper "LI```sqlMIT 5;") = false ∧
    DatabaseAgent.guardedDefaultSql "LI```sqlMIT 5;" = "LIMIT 5;" ∧
    " LIMIT 50".data.isSuffixOf
      (DatabaseAgent.guardedDefaultSql "LI```sqlMIT 5;").data = false := by decide

/-- C10, amended: with the precondition read on the cleaned text (after
fence-stripping and trimming): whenever the cleaned text ends with a
semicolon and contains no case-insensitive LIMIT, the guarded SQL is the
cleaned text with its final semicolon replaced by `" LIMIT 50"`; it therefore
ends with `" LIMIT 50"` and contains no semicolon directly adjacent to a
LIMIT. -/
theorem claim_C10_amended :
    ∀ content : String,
      (DatabaseAgent.cleanGeneratedSql content).data.getLast? = some ';' →
      pyContains "LIMIT" (pyUpper (DatabaseAgent.cleanGeneratedSql content)) = false →
      DatabaseAgent.guardedDefaultSql content =
        String.mk ((DatabaseAgent.cleanGeneratedSql content).data.dropLast ++
          " LIMIT 50".data) ∧
      " LIMIT 50".data.isSuffixOf (DatabaseAgent.guardedDefaultSql content).data = true ∧
      pyContains ";LIMIT" (DatabaseAgent.guardedDefaultSql content) = false := by
  intro content hlast hnl
  set c := DatabaseAgent.cleanGeneratedSql content with hc
  set B := c.data.dropLast with hB
  have hcB : c.data = B ++ [';'] := by
    conv_lhs => rw [← List.dropLast_append_getLast? ';' hlast]
  have hBnl : containsSub "LIMIT".data ((B ++ [';']).map Char.toUpper) = false := by
    have h2 : containsSub "LIMIT".data (c.data.map Char.toUpper) = false := hnl
    rw [hcB] at h2
    exact h2
  have hBnoL : containsSub "LIMIT".data (B.map Char.toUpper) = false := by
    by_contra hcc
    rw [Bool.not_eq_false] at hcc
    have hall : containsSub "LIMIT".data ((B ++ [';']).map Char.toUpper) = true := by
      rw [List.map_append]
      exact containsSub_append_left _ hcc
    rw [hBnl] at hall
    exact Bool.noConfusion hall
  have happ : DatabaseAgent.appendDefaultLimit c = c ++ " LIMIT 50" := by
    unfold DatabaseAgent.appendDefaultLimit
    rw [if_neg (by simp [hnl])]
  have hguard : DatabaseAgent.guardedDefaultSql content =
      DatabaseAgent.fixSemicolonLimit (c ++ " LIMIT 50") := by
    show DatabaseAgent.fixSemicolonLimit (DatabaseAgent.appendDefaultLimit c) = _
    rw [happ]
  have hstep2 : replaceList ";LIMIT".data " LIMIT".data (B ++ " LIMIT 50".data) =
      B ++ " LIMIT 50".data :=
    replaceList_of_not_contains " LIMIT".data _ (no_adjacent_semi_limit hBnoL)
  have hdata : (DatabaseAgent.guardedDefaultSql content).data = B ++ " LIMIT 50".data := by
    rw [hguard, fixSemicolonLimit_data, strAppend_data, hcB,
      replace_semi_junction B hBnl, hstep2]
  refine ⟨?_, ?_, ?_⟩
  · exact String.ext hdata
  · show (" LIMIT 50".data.reverse.isPrefixOf
      (DatabaseAgent.guardedDefaultSql content).data.reverse) = true
    rw [hdata, List.reverse_append]
    exact pfxOf_iff.mpr ⟨B.reverse, rfl⟩
  · show containsSub ";LIMIT".data (DatabaseAgent.guardedDefaultSql content).data = false
    rw [hdata]
    exact no_adjacent_semi_limit hBnoL

/-- C10, witness: a cleaned text ending in a semicolon with no LIMIT; the
guard appends the default limit and the repair removes the semicolon. -/
theorem claim_C10_witness :
    DatabaseAgent.guardedDefaultSql "SELECT a FROM t;" =
      String.mk ((DatabaseAgent.cleanGeneratedSql "SELECT a FROM t;").data.dropLast ++
        " LIMIT 50".data) ∧
    " LIMIT 50".data.isSuffixOf
      (DatabaseAgent.guardedDefaultSql "SELECT a FROM t;").data = true ∧
    pyContains ";LIMIT" (DatabaseAgent.guardedDefaultSql "SELECT a FROM t;") = false :=
  claim_C10_amended "SELECT a FROM t;" (by decide) (by decide)
